import Mathlib

/-
Verification development for the GEC (Google/Chrome EC) programmer core of
flashrom_mod.  The embedding below models, from the C source:

  - the firmware-copy registry `fwcopy` and its freshness flags,
  - `gec_invalidate_copy`, `gec_jump_copy`, `gec_prepare`,
    `gec_need_2nd_pass`, `gec_finish`, `gec_read`, `gec_block_erase`,
    `gec_write` (checksum verification is not compiled in: SUPPORT_CHECKSUM
    is undefined in the source configuration considered here),
  - the LPC status codes from gec_lpc_commands.h.

The EC device and transport are modelled as an oracle (`GecDevice`): a pure
map from each command's parameters to the status the EC reports (and, for
reads, the payload it returns).  Every operation additionally returns the
list of commands it issued, in order, so that claims about which commands
were (or were not) sent can be stated.

Machine-integer arithmetic: offsets and sizes are C `unsigned int` (32-bit);
sums that the C code computes in 32 bits carry an explicit `% U32` where the
comparison could observe the wrap (the intersection test of
`gec_invalidate_copy`).  The chunking loops are modelled with a fuel
argument equal to the request length plus one; since every iteration
consumes at least one byte of the request, the fuel is never exhausted when
the per-command maximum is positive (when that maximum is zero the C loop
does not terminate, and no theorem below concerns that case).
-/

def U32 : Nat := 4294967296

/-- EC_LPC_RESULT_ACCESS_DENIED from gec_lpc_commands.h (enum lpc_status). -/
def EC_LPC_RESULT_ACCESS_DENIED : Int := 4

/-- Modelled from the spec: `ACCESS_DENIED` is the distinguished non-fatal
return value surfaced to the caller on an access-denied erase/write; it is
defined in a header that is not under src/.  Any fixed value distinct from
the device statuses (0..4) works; we use -7. -/
def ACCESS_DENIED : Int := -7

/-- enum lpc_current_image (gec_lpc_commands.h / the fwcopy indices 0..3). -/
inductive LpcImage where
  | unknown
  | ro
  | rwA
  | rwB
  deriving DecidableEq

/-- One entry of `fwcopy`: the cached (offset, size) of a firmware copy plus
its `.flags` field, re-purposed by the source as the freshness flag. -/
structure FmapArea where
  offset : Nat
  size : Nat
  flags : Bool
  deriving DecidableEq

/-- The module-level mutable state of the source file: the three used
entries of `fwcopy` (index 0 is never used) and the two session flags. -/
structure GecState where
  fwRO : FmapArea
  fwA : FmapArea
  fwB : FmapArea
  need_2nd_pass : Bool
  try_latest_firmware : Bool
  deriving DecidableEq

/-- The EC device / transport oracle together with the programmer data:
`priv` models `opaque_programmer->data` (`none` = absent, `some d` = present
with `detected` flag `d`); the `max_data_*` fields model
`opaque_programmer->max_data_read/write`; the remaining fields give the
status the EC reports for each command (and the payload for reads). -/
structure GecDevice where
  priv : Option Bool
  max_data_read : Nat
  max_data_write : Nat
  eraseStatus : Nat → Nat → Int
  writeStatus : Nat → Nat → Int
  readStatus : Nat → Nat → Int
  readData : Nat → Nat → List Nat
  rebootStatus : LpcImage → Int

/-- A command issued over the transport, as recorded in an operation's
trace. -/
inductive Cmd where
  | flashRead (offset size : Nat)
  | flashWrite (offset size : Nat)
  | flashErase (offset size : Nat)
  | rebootEC (target : LpcImage)
  deriving DecidableEq

/-- The offset carried by a flash command (0 for reboot). -/
def Cmd.ofs : Cmd → Nat
  | .flashRead o _ => o
  | .flashWrite o _ => o
  | .flashErase o _ => o
  | .rebootEC _ => 0

/-- The size carried by a flash command (0 for reboot). -/
def Cmd.sz : Cmd → Nat
  | .flashRead _ s => s
  | .flashWrite _ s => s
  | .flashErase _ s => s
  | .rebootEC _ => 0

def Cmd.isRead : Cmd → Bool
  | .flashRead _ _ => true
  | _ => false

def Cmd.isWrite : Cmd → Bool
  | .flashWrite _ _ => true
  | _ => false

/-- The `sections[]` name table of the source. -/
def sections : LpcImage → String
  | .unknown => "UNKNOWN SECTION"
  | .ro => "RO_SECTION"
  | .rwA => "RW_SECTION_A"
  | .rwB => "RW_SECTION_B"

/-- Region lookup by logical index (`fwcopy[i]`); index 0 is the unused
zero-initialized entry. -/
def fwOf (st : GecState) : LpcImage → FmapArea
  | .unknown => ⟨0, 0, false⟩
  | .ro => st.fwRO
  | .rwA => st.fwA
  | .rwB => st.fwB

/-- The per-region condition of gec_invalidate_copy:
`(addr >= fw->offset && addr < fw->offset + fw->size) ||
 (fw->offset >= addr && fw->offset < addr + len)`,
with the two sums computed in 32-bit unsigned arithmetic. -/
def rangeHit (fw : FmapArea) (addr len : Nat) : Bool :=
  (decide (addr ≥ fw.offset) && decide (addr < (fw.offset + fw.size) % U32)) ||
  (decide (fw.offset ≥ addr) && decide (fw.offset < (addr + len) % U32))

def invalidateArea (fw : FmapArea) (addr len : Nat) : FmapArea :=
  if rangeHit fw addr len then { fw with flags := false } else fw

/-- gec_invalidate_copy: mark every firmware copy whose cached range hits
[addr, addr+len) as old (`flags = 0`). -/
def gec_invalidate_copy (st : GecState) (addr len : Nat) : GecState :=
  { st with
    fwRO := invalidateArea st.fwRO addr len,
    fwA := invalidateArea st.fwA addr len,
    fwB := invalidateArea st.fwB addr len }

/-- The target selection of gec_jump_copy: an explicit target is kept;
`unknown` picks the first entry with `.flags` set, in the order RO, RW-A,
RW-B, and stays `unknown` when none is set. -/
def pickCopy (st : GecState) (target : LpcImage) : LpcImage :=
  if target ≠ LpcImage.unknown then target
  else if st.fwRO.flags then LpcImage.ro
  else if st.fwA.flags then LpcImage.rwA
  else if st.fwB.flags then LpcImage.rwB
  else LpcImage.unknown

/-- gec_jump_copy: returns 1 without sending anything when the selected
target is still `unknown`; otherwise issues one EC_LPC_COMMAND_REBOOT_EC
naming the target and returns the transport's status.  (The 1-second
re-init sleep is not modelled: time is outside the embedding.) -/
def gec_jump_copy (dev : GecDevice) (st : GecState) (target : LpcImage) :
    Int × List Cmd :=
  let t := pickCopy st target
  if t = LpcImage.unknown then (1, [])
  else (dev.rebootStatus t, [Cmd.rebootEC t])

/-- One named area of the FMAP region map found in the candidate image. -/
structure FmapAreaRec where
  name : String
  offset : Nat
  size : Nat

/-- Modelled from the spec: the result of `fmap_find_in_memory` (fmap.c is
not under src/) — either the parsed list of named areas of the image's
region map, or `none` when no region map can be located.  `gec_prepare`
takes this parse result as an input. -/
abbrev FmapParse := Option (List FmapAreaRec)

/-- The body of gec_prepare's double loop for one fmap area: for each
logical section whose name matches, the area's (offset, size) is copied
into `fwcopy` and its flags are set to 1 (fresh). -/
def applyArea (st : GecState) (fa : FmapAreaRec) : GecState :=
  let st1 := if fa.name = sections LpcImage.ro then
    { st with fwRO := ⟨fa.offset, fa.size, true⟩ } else st
  let st2 := if fa.name = sections LpcImage.rwA then
    { st1 with fwA := ⟨fa.offset, fa.size, true⟩ } else st1
  if fa.name = sections LpcImage.rwB then
    { st2 with fwB := ⟨fa.offset, fa.size, true⟩ } else st2

/-- gec_prepare: returns 0 untouched when the programmer is not detected or
when no fmap is found in the image; otherwise caches the matched sections
as fresh and returns the result of a forced jump to the RO copy. -/
def gec_prepare (dev : GecDevice) (st : GecState) (fmapResult : FmapParse) :
    Int × GecState × List Cmd :=
  if dev.priv ≠ some true then (0, st, [])
  else
    match fmapResult with
    | none => (0, st, [])
    | some areas =>
      let st1 := areas.foldl applyArea st
      let out := gec_jump_copy dev st1 LpcImage.ro
      (out.1, st1, out.2)

/-- gec_need_2nd_pass: 0 when not detected or when `need_2nd_pass` is
clear; otherwise -1 when the jump to an unspecified (freshest) copy fails,
else the (set, hence 1) value of `need_2nd_pass`. -/
def gec_need_2nd_pass (dev : GecDevice) (st : GecState) :
    Int × GecState × List Cmd :=
  if dev.priv ≠ some true then (0, st, [])
  else if st.need_2nd_pass then
    let out := gec_jump_copy dev st LpcImage.unknown
    if out.1 ≠ 0 then (-1, st, out.2) else (1, st, out.2)
  else (0, st, [])

/-- gec_finish: 0 when not detected or `try_latest_firmware` is clear;
otherwise try B (if flagged fresh), then A (if flagged fresh), and fall
back to RO, returning the RO jump's status. -/
def gec_finish (dev : GecDevice) (st : GecState) :
    Int × GecState × List Cmd :=
  if dev.priv ≠ some true then (0, st, [])
  else if st.try_latest_firmware then
    let outB := if st.fwB.flags then gec_jump_copy dev st LpcImage.rwB
      else (1, [])
    if st.fwB.flags ∧ outB.1 = 0 then (0, st, outB.2)
    else
      let outA := if st.fwA.flags then gec_jump_copy dev st LpcImage.rwA
        else (1, [])
      if st.fwA.flags ∧ outA.1 = 0 then (0, st, outB.2 ++ outA.2)
      else
        let outRO := gec_jump_copy dev st LpcImage.ro
        (outRO.1, st, outB.2 ++ outA.2 ++ outRO.2)
  else (0, st, [])

/-- gec_block_erase: a single EC_LPC_COMMAND_FLASH_ERASE.  ACCESS_DENIED
invalidates the requested range, raises `need_2nd_pass` and returns the
distinguished recoverable value; any other non-zero status is returned as
is; success sets `try_latest_firmware`. -/
def gec_block_erase (dev : GecDevice) (st : GecState)
    (blockaddr len : Nat) : Int × GecState × List Cmd :=
  let rc := dev.eraseStatus blockaddr len
  if rc = EC_LPC_RESULT_ACCESS_DENIED then
    (ACCESS_DENIED,
     { gec_invalidate_copy st blockaddr len with need_2nd_pass := true },
     [Cmd.flashErase blockaddr len])
  else if rc ≠ 0 then (rc, st, [Cmd.flashErase blockaddr len])
  else (0, { st with try_latest_firmware := true },
        [Cmd.flashErase blockaddr len])

/-- The chunk loop of gec_write (`for (i = 0; i < nbytes; i += written)`).
On ACCESS_DENIED the *original* full range is invalidated and the loop
returns immediately; any other non-zero status breaks the loop, and the
code after the loop sets `try_latest_firmware` before returning. -/
def gec_write_loop (dev : GecDevice) (addr nbytes : Nat) :
    Nat → Nat → GecState → Int × GecState × List Cmd
  | 0, _, st => (0, st, [])
  | fuel + 1, i, st =>
    if i < nbytes ∧ 0 < dev.max_data_write then
      let written := min (nbytes - i) dev.max_data_write
      let rc := dev.writeStatus (addr + i) written
      if rc = EC_LPC_RESULT_ACCESS_DENIED then
        (ACCESS_DENIED,
         { gec_invalidate_copy st addr nbytes with need_2nd_pass := true },
         [Cmd.flashWrite (addr + i) written])
      else if rc ≠ 0 then
        (rc, { st with try_latest_firmware := true },
         [Cmd.flashWrite (addr + i) written])
      else
        let out := gec_write_loop dev addr nbytes fuel (i + written) st
        (out.1, out.2.1, Cmd.flashWrite (addr + i) written :: out.2.2)
    else (0, { st with try_latest_firmware := true }, [])

/-- gec_write (payload bytes are not modelled: no claim concerns the
outbound data contents). -/
def gec_write (dev : GecDevice) (st : GecState) (addr nbytes : Nat) :
    Int × GecState × List Cmd :=
  gec_write_loop dev addr nbytes (nbytes + 1) 0 st

/-- memcpy(readarr + i, r.data, p.size): overwrite `src.length` bytes of
`dst` starting at position `pos`. -/
def memcpyAt (dst : List Nat) (pos : Nat) (src : List Nat) : List Nat :=
  dst.take pos ++ src ++ dst.drop (pos + src.length)

/-- The chunk loop of gec_read.  Each chunk issues one
EC_LPC_COMMAND_FLASH_READ; a non-zero status returns immediately; on
success `p.size` payload bytes are copied into the destination at the
chunk's offset. -/
def gec_read_loop (dev : GecDevice) (blockaddr readcnt : Nat) :
    Nat → Nat → List Nat → Int × List Nat × List Cmd
  | 0, _, arr => (0, arr, [])
  | fuel + 1, i, arr =>
    if i < readcnt ∧ 0 < dev.max_data_read then
      let sz := min (readcnt - i) dev.max_data_read
      let rc := dev.readStatus (blockaddr + i) sz
      if rc ≠ 0 then (rc, arr, [Cmd.flashRead (blockaddr + i) sz])
      else
        let arr2 := memcpyAt arr i ((dev.readData (blockaddr + i) sz).take sz)
        let out := gec_read_loop dev blockaddr readcnt fuel (i + sz) arr2
        (out.1, out.2.1, Cmd.flashRead (blockaddr + i) sz :: out.2.2)
    else (0, arr, [])

/-- gec_read: `readarr` is the caller's destination buffer. -/
def gec_read (dev : GecDevice) (readarr : List Nat)
    (blockaddr readcnt : Nat) : Int × List Nat × List Cmd :=
  gec_read_loop dev blockaddr readcnt (readcnt + 1) 0 readarr

/-- The canonical chunk decomposition both loops follow: starting at
`base` with `rem` bytes left, the next chunk is `min rem maxlen` bytes. -/
def chunkRangesAux (maxlen : Nat) : Nat → Nat → Nat → List (Nat × Nat)
  | 0, _, _ => []
  | fuel + 1, base, rem =>
    if 0 < rem ∧ 0 < maxlen then
      let sz := min rem maxlen
      (base, sz) :: chunkRangesAux maxlen fuel (base + sz) (rem - sz)
    else []

def chunkRanges (base maxlen rem : Nat) : List (Nat × Nat) :=
  chunkRangesAux maxlen rem base rem

def toReadCmd (p : Nat × Nat) : Cmd := Cmd.flashRead p.1 p.2

def toWriteCmd (p : Nat × Nat) : Cmd := Cmd.flashWrite p.1 p.2

/-- Concatenation of chunk payloads, in list order. -/
def joinAll : List (List Nat) → List Nat
  | [] => []
  | x :: xs => x ++ joinAll xs

/-- `contiguousFrom a cs` holds when the commands in `cs` carry offset
ranges that start exactly at `a` and follow each other with no gap and no
overlap. -/
def contiguousFrom : Nat → List Cmd → Bool
  | _, [] => true
  | a, c :: cs => (decide (Cmd.ofs c = a)) && contiguousFrom (a + Cmd.sz c) cs

/-- One session operation other than prepare, for stating the freshness
invariant over arbitrary call sequences. -/
inductive GecOp where
  | erase (blockaddr len : Nat)
  | write (addr nbytes : Nat)
  | read (blockaddr readcnt : Nat)
  | jump (target : LpcImage)
  | need2nd
  | finish

/-- The session state after one operation.  `gec_read` and `gec_jump_copy`
touch no module state in the source (their embeddings return none), so they
map the state to itself. -/
def runOp (dev : GecDevice) (st : GecState) : GecOp → GecState
  | .erase a l => (gec_block_erase dev st a l).2.1
  | .write a n => (gec_write dev st a n).2.1
  | .read _ _ => st
  | .jump _ => st
  | .need2nd => (gec_need_2nd_pass dev st).2.1
  | .finish => (gec_finish dev st).2.1

def runOps (dev : GecDevice) : GecState → List GecOp → GecState
  | st, [] => st
  | st, op :: ops => runOps dev (runOp dev st op) ops

/-! ### Concrete fixtures used by witnesses and counterexamples -/

def devC1 : GecDevice :=
  { priv := some true, max_data_read := 2, max_data_write := 2,
    eraseStatus := fun _ _ => EC_LPC_RESULT_ACCESS_DENIED,
    writeStatus := fun o _ => if o = 0 then 0
      else EC_LPC_RESULT_ACCESS_DENIED,
    readStatus := fun _ _ => 0,
    readData := fun _ s => List.replicate s 0,
    rebootStatus := fun _ => 0 }

def stC1 : GecState :=
  { fwRO := ⟨0, 4, true⟩, fwA := ⟨4, 4, true⟩, fwB := ⟨8, 4, true⟩,
    need_2nd_pass := false, try_latest_firmware := false }

def devC2 : GecDevice :=
  { priv := some true, max_data_read := 2, max_data_write := 2,
    eraseStatus := fun _ _ => 0, writeStatus := fun _ _ => 0,
    readStatus := fun _ _ => 0, readData := fun _ s => List.replicate s 0,
    rebootStatus := fun _ => 0 }

def stC2 : GecState :=
  { fwRO := ⟨0, 4, false⟩, fwA := ⟨4, 4, false⟩, fwB := ⟨8, 4, false⟩,
    need_2nd_pass := false, try_latest_firmware := false }

def areasC2 : List FmapAreaRec := [⟨"RO_SECTION", 0, 16⟩]

def devC3 : GecDevice :=
  { priv := some true, max_data_read := 2, max_data_write := 2,
    eraseStatus := fun _ _ => 0, writeStatus := fun _ _ => 0,
    readStatus := fun _ _ => 0, readData := fun _ s => List.replicate s 0,
    rebootStatus := fun _ => 0 }

def stC3 : GecState :=
  { fwRO := ⟨0, 4, false⟩, fwA := ⟨4, 4, false⟩, fwB := ⟨8, 4, false⟩,
    need_2nd_pass := false, try_latest_firmware := false }

def devC4 : GecDevice :=
  { priv := some true, max_data_read := 2, max_data_write := 2,
    eraseStatus := fun _ _ => 0, writeStatus := fun _ _ => 0,
    readStatus := fun _ _ => 0, readData := fun _ s => List.replicate s 0,
    rebootStatus := fun _ => 1 }

def devC4w : GecDevice :=
  { priv := some true, max_data_read := 2, max_data_write := 2,
    eraseStatus := fun _ _ => 0, writeStatus := fun _ _ => 0,
    readStatus := fun _ _ => 0, readData := fun _ s => List.replicate s 0,
    rebootStatus := fun _ => 0 }

def stC4 : GecState :=
  { fwRO := ⟨0, 4, true⟩, fwA := ⟨4, 4, true⟩, fwB := ⟨8, 4, true⟩,
    need_2nd_pass := true, try_latest_firmware := false }

def devC5 : GecDevice :=
  { priv := some true, max_data_read := 2, max_data_write := 2,
    eraseStatus := fun _ _ => 0, writeStatus := fun _ _ => 0,
    readStatus := fun _ _ => 0, readData := fun _ s => List.replicate s 0,
    rebootStatus := fun t => if t = LpcImage.rwB then 1 else 0 }

def stC5 : GecState :=
  { fwRO := ⟨0, 4, false⟩, fwA := ⟨4, 4, true⟩, fwB := ⟨8, 4, true⟩,
    need_2nd_pass := false, try_latest_firmware := true }

def devC6 : GecDevice :=
  { priv := some true, max_data_read := 2, max_data_write := 2,
    eraseStatus := fun _ _ => 2, writeStatus := fun _ _ => 2,
    readStatus := fun _ _ => 0, readData := fun _ s => List.replicate s 0,
    rebootStatus := fun _ => 0 }

def devC6w : GecDevice :=
  { priv := some true, max_data_read := 2, max_data_write := 2,
    eraseStatus := fun _ _ => 0, writeStatus := fun _ _ => 2,
    readStatus := fun _ _ => 0, readData := fun _ s => List.replicate s 0,
    rebootStatus := fun _ => 0 }

def stC6 : GecState :=
  { fwRO := ⟨0, 4, true⟩, fwA := ⟨4, 4, true⟩, fwB := ⟨8, 4, true⟩,
    need_2nd_pass := false, try_latest_firmware := false }

def devC7 : GecDevice :=
  { priv := some true, max_data_read := 2, max_data_write := 2,
    eraseStatus := fun _ _ => 0, writeStatus := fun _ _ => 0,
    readStatus := fun _ _ => 0, readData := fun o s => List.replicate s o,
    rebootStatus := fun _ => 0 }

def arrC7 : List Nat := List.replicate 5 9

def stC7 : GecState :=
  { fwRO := ⟨0, 4, true⟩, fwA := ⟨4, 4, true⟩, fwB := ⟨8, 4, true⟩,
    need_2nd_pass := false, try_latest_firmware := false }

def stC8 : GecState :=
  { fwRO := ⟨0, 256, true⟩, fwA := ⟨256, 256, true⟩,
    fwB := ⟨512, 256, true⟩,
    need_2nd_pass := false, try_latest_firmware := false }

def devC9 : GecDevice :=
  { priv := some true, max_data_read := 2, max_data_write := 2,
    eraseStatus := fun _ _ => EC_LPC_RESULT_ACCESS_DENIED,
    writeStatus := fun _ _ => 0,
    readStatus := fun _ _ => 0, readData := fun _ s => List.replicate s 0,
    rebootStatus := fun _ => 0 }

def stC9 : GecState :=
  { fwRO := ⟨0, 4, false⟩, fwA := ⟨4, 4, true⟩, fwB := ⟨8, 4, true⟩,
    need_2nd_pass := false, try_latest_firmware := false }

def opsC9 : List GecOp :=
  [GecOp.erase 0 4, GecOp.write 4 4, GecOp.read 0 4,
   GecOp.jump LpcImage.ro, GecOp.need2nd, GecOp.finish]

def devC10 : GecDevice :=
  { priv := none, max_data_read := 2, max_data_write := 2,
    eraseStatus := fun _ _ => 0, writeStatus := fun _ _ => 0,
    readStatus := fun _ _ => 0, readData := fun _ s => List.replicate s 0,
    rebootStatus := fun _ => 0 }

def stC10 : GecState :=
  { fwRO := ⟨0, 4, true⟩, fwA := ⟨4, 4, true⟩, fwB := ⟨8, 4, true⟩,
    need_2nd_pass := true, try_latest_firmware := true }

def areasC10 : List FmapAreaRec := [⟨"RW_SECTION_A", 256, 256⟩]

/-! ### Helper lemmas: chunk decomposition -/

lemma chunkRangesAux_congr (m : Nat) :
    ∀ f1 : Nat, ∀ f2 base rem, rem ≤ f1 → rem ≤ f2 →
      chunkRangesAux m f1 base rem = chunkRangesAux m f2 base rem := by
  intro f1
  induction f1 with
  | zero =>
    intro f2 base rem h1 _
    have hrem : rem = 0 := by omega
    subst hrem
    cases f2 <;> simp [chunkRangesAux]
  | succ f ih =>
    intro f2 base rem h1 h2
    rcases Nat.eq_zero_or_pos rem with hrem | hrem
    · subst hrem
      cases f2 <;> simp [chunkRangesAux]
    · obtain ⟨r, rfl⟩ : ∃ r, rem = r + 1 := ⟨rem - 1, by omega⟩
      obtain ⟨g, rfl⟩ : ∃ g, f2 = g + 1 := ⟨f2 - 1, by omega⟩
      by_cases hm : 0 < m
      · simp only [chunkRangesAux, if_pos (And.intro hrem hm)]
        have hsz : 0 < min (r + 1) m := by omega
        rw [ih g (base + min (r + 1) m) (r + 1 - min (r + 1) m)
          (by omega) (by omega)]
      · simp only [chunkRangesAux, if_neg (by omega : ¬ (0 < r + 1 ∧ 0 < m))]

lemma chunkRangesAux_eq (m fuel base rem : Nat) (h : rem ≤ fuel) :
    chunkRangesAux m fuel base rem = chunkRanges base m rem :=
  chunkRangesAux_congr m fuel rem base rem h (Nat.le_refl rem)

lemma chunkRanges_zero (base m : Nat) : chunkRanges base m 0 = [] := rfl

lemma chunkRanges_cons (base m rem : Nat) (hrem : 0 < rem) (hm : 0 < m) :
    chunkRanges base m rem =
      (base, min rem m) ::
        chunkRanges (base + min rem m) m (rem - min rem m) := by
  obtain ⟨r, rfl⟩ : ∃ r, rem = r + 1 := ⟨rem - 1, by omega⟩
  show chunkRangesAux m (r + 1) base (r + 1) = _
  simp only [chunkRangesAux, if_pos (And.intro hrem hm)]
  rw [chunkRangesAux_eq m r (base + min (r + 1) m) (r + 1 - min (r + 1) m)
    (by omega)]

lemma chunkRanges_nil_of_maxzero (base rem : Nat) :
    chunkRanges base 0 rem = [] := by
  cases rem with
  | zero => rfl
  | succ r =>
    show chunkRangesAux 0 (r + 1) base (r + 1) = _
    simp [chunkRangesAux]

lemma chunkRanges_length (m : Nat) (hm : 0 < m) :
    ∀ rem base, (chunkRanges base m rem).length = (rem + m - 1) / m := by
  intro rem
  induction rem using Nat.strong_induction_on with
  | _ rem ih =>
    intro base
    rcases Nat.eq_zero_or_pos rem with hrem | hrem
    · subst hrem
      simp [chunkRanges_zero, Nat.div_eq_of_lt (by omega : m - 1 < m)]
    · rw [chunkRanges_cons base m rem hrem hm]
      have hsz : 0 < min rem m := by omega
      rw [List.length_cons, ih (rem - min rem m) (by omega)]
      have h1 : rem + m - 1 = (rem - 1) + m := by omega
      rw [h1, Nat.add_div_right _ hm]
      rcases le_or_lt rem m with hle | hlt
      · have : min rem m = rem := by omega
        rw [this]
        simp [Nat.div_eq_of_lt (by omega : rem - 1 < m),
          Nat.div_eq_of_lt (by omega : m - 1 < m)]
      · have : min rem m = m := by omega
        rw [this]
        have h2 : rem - m + m - 1 = (rem - 1 - m) + m := by omega
        rw [h2, Nat.add_div_right _ hm,
          Nat.div_eq_sub_div hm (by omega : m ≤ rem - 1)]

lemma chunkRanges_mem (m : Nat) :
    ∀ rem base p, p ∈ chunkRanges base m rem → 0 < p.2 ∧ p.2 ≤ m := by
  intro rem
  induction rem using Nat.strong_induction_on with
  | _ rem ih =>
    intro base p hp
    rcases Nat.eq_zero_or_pos rem with hrem | hrem
    · subst hrem; simp [chunkRanges_zero] at hp
    · rcases Nat.eq_zero_or_pos m with hm | hm
      · subst hm; simp [chunkRanges_nil_of_maxzero] at hp
      · rw [chunkRanges_cons base m rem hrem hm] at hp
        have hsz : 0 < min rem m := by omega
        rcases List.mem_cons.mp hp with h | h
        · subst h; refine ⟨by simp; omega, by simp⟩
        · exact ih (rem - min rem m) (by omega) _ p h

lemma chunkRanges_sum (m : Nat) :
    ∀ rem base, ((chunkRanges base m rem).map Prod.snd).sum = rem ∨
      m = 0 := by
  intro rem
  induction rem using Nat.strong_induction_on with
  | _ rem ih =>
    intro base
    rcases Nat.eq_zero_or_pos m with hm | hm
    · right; exact hm
    left
    rcases Nat.eq_zero_or_pos rem with hrem | hrem
    · subst hrem; simp [chunkRanges_zero]
    · rw [chunkRanges_cons base m rem hrem hm]
      have hsz : 0 < min rem m := by omega
      rcases ih (rem - min rem m) (by omega) (base + min rem m) with h | h
      · simp only [List.map_cons, List.sum_cons, h]; omega
      · omega

lemma chunkRanges_contig (m : Nat) (mk : Nat × Nat → Cmd)
    (hofs : ∀ p, Cmd.ofs (mk p) = p.1) (hsz : ∀ p, Cmd.sz (mk p) = p.2) :
    ∀ rem base, contiguousFrom base ((chunkRanges base m rem).map mk) = true := by
  intro rem
  induction rem using Nat.strong_induction_on with
  | _ rem ih =>
    intro base
    rcases Nat.eq_zero_or_pos rem with hrem | hrem
    · subst hrem; simp [chunkRanges_zero, contiguousFrom]
    · rcases Nat.eq_zero_or_pos m with hm | hm
      · subst hm; simp [chunkRanges_nil_of_maxzero, contiguousFrom]
      · rw [chunkRanges_cons base m rem hrem hm]
        have hsz0 : 0 < min rem m := by omega
        simp only [List.map_cons, contiguousFrom, hofs, hsz]
        simp [ih (rem - min rem m) (by omega)]

/-! ### Helper lemmas: memcpy into the destination buffer -/

lemma memcpyAt_length (dst src : List Nat) (pos : Nat)
    (h : pos + src.length ≤ dst.length) :
    (memcpyAt dst pos src).length = dst.length := by
  simp [memcpyAt]; omega

lemma memcpyAt_take (dst src : List Nat) (pos : Nat)
    (h : pos ≤ dst.length) :
    (memcpyAt dst pos src).take (pos + src.length) = dst.take pos ++ src := by
  have h1 : (dst.take pos ++ src).length = pos + src.length := by
    simp [List.length_take]; omega
  calc (memcpyAt dst pos src).take (pos + src.length)
      = ((dst.take pos ++ src) ++ dst.drop (pos + src.length)).take
          ((dst.take pos ++ src).length) := by
        rw [h1]; simp [memcpyAt, List.append_assoc]
    _ = dst.take pos ++ src := List.take_left _ _

/-! ### Helper lemmas: session-state projections -/

lemma fwOf_set_need (st : GecState) (b : Bool) (img : LpcImage) :
    fwOf { st with need_2nd_pass := b } img = fwOf st img := by
  cases img <;> rfl

lemma fwOf_set_try (st : GecState) (b : Bool) (img : LpcImage) :
    fwOf { st with try_latest_firmware := b } img = fwOf st img := by
  cases img <;> rfl

lemma fwOf_invalidate (st : GecState) (a l : Nat) (img : LpcImage) :
    fwOf (gec_invalidate_copy st a l) img =
      invalidateArea (fwOf st img) a l := by
  cases img
  case unknown =>
    show (⟨0, 0, false⟩ : FmapArea) = invalidateArea ⟨0, 0, false⟩ a l
    unfold invalidateArea; split <;> rfl
  all_goals rfl

lemma invalidateArea_mono (fw : FmapArea) (a l : Nat)
    (h : (invalidateArea fw a l).flags = true) : fw.flags = true := by
  by_cases hh : rangeHit fw a l
  · rw [invalidateArea, if_pos hh] at h
    exact absurd h (by simp)
  · rwa [invalidateArea, if_neg hh] at h

/-! ### Helper lemmas: the gec_read chunk loop -/

lemma gec_read_loop_ok (dev : GecDevice) (blockaddr readcnt : Nat)
    (hm : 0 < dev.max_data_read)
    (hok : ∀ o s, dev.readStatus o s = 0)
    (hdata : ∀ o s, s ≤ (dev.readData o s).length) :
    ∀ fuel i arr, readcnt - i < fuel → i ≤ readcnt → arr.length = readcnt →
      gec_read_loop dev blockaddr readcnt fuel i arr =
        (0,
         arr.take i ++ joinAll
           ((chunkRanges (blockaddr + i) dev.max_data_read (readcnt - i)).map
             (fun p => (dev.readData p.1 p.2).take p.2)),
         (chunkRanges (blockaddr + i) dev.max_data_read
           (readcnt - i)).map toReadCmd) := by
  intro fuel
  induction fuel with
  | zero => intro i arr h _ _; omega
  | succ fuel ih =>
    intro i arr hfuel hi hlen
    by_cases hlt : i < readcnt
    · have hrem : 0 < readcnt - i := by omega
      have hsz : 0 < min (readcnt - i) dev.max_data_read := by omega
      have hszle : min (readcnt - i) dev.max_data_read ≤ readcnt - i := by
        omega
      simp only [gec_read_loop, if_pos (And.intro hlt hm), hok,
        if_neg (by simp : ¬ (0 : Int) ≠ 0)]
      have hplen : ((dev.readData (blockaddr + i)
          (min (readcnt - i) dev.max_data_read)).take
            (min (readcnt - i) dev.max_data_read)).length =
          min (readcnt - i) dev.max_data_read := by
        rw [List.length_take]
        exact Nat.min_eq_left (hdata _ _)
      rw [ih (i + min (readcnt - i) dev.max_data_read) _
        (by omega) (by omega)
        (by rw [memcpyAt_length _ _ _ (by rw [hplen]; omega)]; exact hlen)]
      rw [chunkRanges_cons (blockaddr + i) dev.max_data_read (readcnt - i)
        hrem hm]
      have e1 : blockaddr + i + min (readcnt - i) dev.max_data_read =
          blockaddr + (i + min (readcnt - i) dev.max_data_read) := by omega
      have e2 : readcnt - i - min (readcnt - i) dev.max_data_read =
          readcnt - (i + min (readcnt - i) dev.max_data_read) := by omega
      simp only [List.map_cons, joinAll, toReadCmd, e1, e2]
      have htake : (memcpyAt arr i ((dev.readData (blockaddr + i)
          (min (readcnt - i) dev.max_data_read)).take
            (min (readcnt - i) dev.max_data_read))).take
          (i + min (readcnt - i) dev.max_data_read) =
          arr.take i ++ (dev.readData (blockaddr + i)
            (min (readcnt - i) dev.max_data_read)).take
              (min (readcnt - i) dev.max_data_read) := by
        have h2 := memcpyAt_take arr ((dev.readData (blockaddr + i)
          (min (readcnt - i) dev.max_data_read)).take
            (min (readcnt - i) dev.max_data_read)) i (by omega)
        rwa [hplen] at h2
      rw [htake, List.append_assoc]
    · have h0 : readcnt - i = 0 := by omega
      simp only [gec_read_loop,
        if_neg (by omega : ¬ (i < readcnt ∧ 0 < dev.max_data_read)),
        h0, chunkRanges_zero, List.map_nil]
      show (0, arr, ([] : List Cmd)) = (0, arr.take i ++ joinAll [], [])
      rw [List.take_of_length_le (by omega)]
      simp [joinAll]

/-! ### Helper lemmas: the gec_write chunk loop -/

lemma gec_write_loop_ok (dev : GecDevice) (addr nbytes : Nat)
    (hm : 0 < dev.max_data_write) :
    ∀ fuel i st, nbytes - i < fuel →
      (∀ p ∈ chunkRanges (addr + i) dev.max_data_write (nbytes - i),
        dev.writeStatus p.1 p.2 = 0) →
      gec_write_loop dev addr nbytes fuel i st =
        (0, { st with try_latest_firmware := true },
         (chunkRanges (addr + i) dev.max_data_write
           (nbytes - i)).map toWriteCmd) := by
  intro fuel
  induction fuel with
  | zero => intro i st h _; omega
  | succ fuel ih =>
    intro i st hfuel hok
    by_cases hlt : i < nbytes
    · have hrem : 0 < nbytes - i := by omega
      have hsz : 0 < min (nbytes - i) dev.max_data_write := by omega
      rw [chunkRanges_cons (addr + i) dev.max_data_write (nbytes - i)
        hrem hm] at hok ⊢
      have hhead := hok (addr + i, min (nbytes - i) dev.max_data_write)
        (List.mem_cons_self _ _)
      simp only [gec_write_loop, if_pos (And.intro hlt hm), hhead,
        if_neg (by decide : ¬ (0 : Int) = EC_LPC_RESULT_ACCESS_DENIED),
        if_neg (by simp : ¬ (0 : Int) ≠ 0)]
      have e1 : addr + i + min (nbytes - i) dev.max_data_write =
          addr + (i + min (nbytes - i) dev.max_data_write) := by omega
      have e2 : nbytes - i - min (nbytes - i) dev.max_data_write =
          nbytes - (i + min (nbytes - i) dev.max_data_write) := by omega
      rw [ih (i + min (nbytes - i) dev.max_data_write) st (by omega)
        (by intro p hp
            refine hok p (List.mem_cons_of_mem _ ?_)
            rwa [e1, e2])]
      simp only [List.map_cons, toWriteCmd, e1, e2]
    · have h0 : nbytes - i = 0 := by omega
      simp only [gec_write_loop,
        if_neg (by omega : ¬ (i < nbytes ∧ 0 < dev.max_data_write)),
        h0, chunkRanges_zero, List.map_nil]

lemma gec_write_loop_ad (dev : GecDevice) (addr nbytes : Nat)
    (hm : 0 < dev.max_data_write) :
    ∀ done : List (Nat × Nat), ∀ fuel i st p rest,
      nbytes - i < fuel →
      chunkRanges (addr + i) dev.max_data_write (nbytes - i) =
        done ++ p :: rest →
      (∀ q ∈ done, dev.writeStatus q.1 q.2 = 0) →
      dev.writeStatus p.1 p.2 = EC_LPC_RESULT_ACCESS_DENIED →
      gec_write_loop dev addr nbytes fuel i st =
        (ACCESS_DENIED,
         { gec_invalidate_copy st addr nbytes with need_2nd_pass := true },
         (done ++ [p]).map toWriteCmd) := by
  intro done
  induction done with
  | nil =>
    intro fuel i st p rest hfuel hranges hdone hp
    have hrem : 0 < nbytes - i := by
      rcases Nat.eq_zero_or_pos (nbytes - i) with h0 | h
      · rw [h0, chunkRanges_zero] at hranges
        exact absurd hranges (by simp)
      · exact h
    rw [chunkRanges_cons (addr + i) dev.max_data_write (nbytes - i)
      hrem hm] at hranges
    simp only [List.nil_append, List.cons.injEq] at hranges
    obtain ⟨hp1, _⟩ := hranges
    obtain ⟨f, rfl⟩ : ∃ f, fuel = f + 1 := ⟨fuel - 1, by omega⟩
    have hlt : i < nbytes := by omega
    have hrc : dev.writeStatus (addr + i)
        (min (nbytes - i) dev.max_data_write) =
        EC_LPC_RESULT_ACCESS_DENIED := by rw [← hp1] at hp; exact hp
    simp only [gec_write_loop, if_pos (And.intro hlt hm), hrc, if_pos rfl]
    simp [toWriteCmd, ← hp1]
  | cons d done' ih =>
    intro fuel i st p rest hfuel hranges hdone hp
    have hrem : 0 < nbytes - i := by
      rcases Nat.eq_zero_or_pos (nbytes - i) with h0 | h
      · rw [h0, chunkRanges_zero] at hranges
        exact absurd hranges (by simp)
      · exact h
    have hsz : 0 < min (nbytes - i) dev.max_data_write := by omega
    rw [chunkRanges_cons (addr + i) dev.max_data_write (nbytes - i)
      hrem hm] at hranges
    simp only [List.cons_append, List.cons.injEq] at hranges
    obtain ⟨hd, htail⟩ := hranges
    obtain ⟨f, rfl⟩ : ∃ f, fuel = f + 1 := ⟨fuel - 1, by omega⟩
    have hlt : i < nbytes := by omega
    have hrc : dev.writeStatus (addr + i)
        (min (nbytes - i) dev.max_data_write) = 0 := by
      have h2 := hdone d (List.mem_cons_self _ _)
      rw [← hd] at h2; exact h2
    simp only [gec_write_loop, if_pos (And.intro hlt hm), hrc,
      if_neg (by decide : ¬ (0 : Int) = EC_LPC_RESULT_ACCESS_DENIED),
      if_neg (by simp : ¬ (0 : Int) ≠ 0)]
    have e1 : addr + i + min (nbytes - i) dev.max_data_write =
        addr + (i + min (nbytes - i) dev.max_data_write) := by omega
    have e2 : nbytes - i - min (nbytes - i) dev.max_data_write =
        nbytes - (i + min (nbytes - i) dev.max_data_write) := by omega
    rw [ih f (i + min (nbytes - i) dev.max_data_write) st p rest
      (by omega) (by rw [← e1, ← e2]; exact htail)
      (fun q hq => hdone q (List.mem_cons_of_mem _ hq)) hp]
    simp [toWriteCmd, ← hd]

lemma gec_write_loop_hard (dev : GecDevice) (addr nbytes : Nat)
    (hm : 0 < dev.max_data_write) :
    ∀ done : List (Nat × Nat), ∀ fuel i st p rest,
      nbytes - i < fuel →
      chunkRanges (addr + i) dev.max_data_write (nbytes - i) =
        done ++ p :: rest →
      (∀ q ∈ done, dev.writeStatus q.1 q.2 = 0) →
      dev.writeStatus p.1 p.2 ≠ EC_LPC_RESULT_ACCESS_DENIED →
      dev.writeStatus p.1 p.2 ≠ 0 →
      gec_write_loop dev addr nbytes fuel i st =
        (dev.writeStatus p.1 p.2,
         { st with try_latest_firmware := true },
         (done ++ [p]).map toWriteCmd) := by
  intro done
  induction done with
  | nil =>
    intro fuel i st p rest hfuel hranges hdone hp4 hp0
    have hrem : 0 < nbytes - i := by
      rcases Nat.eq_zero_or_pos (nbytes - i) with h0 | h
      · rw [h0, chunkRanges_zero] at hranges
        exact absurd hranges (by simp)
      · exact h
    rw [chunkRanges_cons (addr + i) dev.max_data_write (nbytes - i)
      hrem hm] at hranges
    simp only [List.nil_append, List.cons.injEq] at hranges
    obtain ⟨hp1, _⟩ := hranges
    obtain ⟨f, rfl⟩ : ∃ f, fuel = f + 1 := ⟨fuel - 1, by omega⟩
    have hlt : i < nbytes := by omega
    have hrc4 : dev.writeStatus (addr + i)
        (min (nbytes - i) dev.max_data_write) ≠
        EC_LPC_RESULT_ACCESS_DENIED := by rw [← hp1] at hp4; exact hp4
    have hrc0 : dev.writeStatus (addr + i)
        (min (nbytes - i) dev.max_data_write) ≠ 0 := by
      rw [← hp1] at hp0; exact hp0
    simp only [gec_write_loop, if_pos (And.intro hlt hm),
      if_neg hrc4, if_pos hrc0]
    simp [toWriteCmd, ← hp1]
  | cons d done' ih =>
    intro fuel i st p rest hfuel hranges hdone hp4 hp0
    have hrem : 0 < nbytes - i := by
      rcases Nat.eq_zero_or_pos (nbytes - i) with h0 | h
      · rw [h0, chunkRanges_zero] at hranges
        exact absurd hranges (by simp)
      · exact h
    have hsz : 0 < min (nbytes - i) dev.max_data_write := by omega
    rw [chunkRanges_cons (addr + i) dev.max_data_write (nbytes - i)
      hrem hm] at hranges
    simp only [List.cons_append, List.cons.injEq] at hranges
    obtain ⟨hd, htail⟩ := hranges
    obtain ⟨f, rfl⟩ : ∃ f, fuel = f + 1 := ⟨fuel - 1, by omega⟩
    have hlt : i < nbytes := by omega
    have hrc : dev.writeStatus (addr + i)
        (min (nbytes - i) dev.max_data_write) = 0 := by
      have h2 := hdone d (List.mem_cons_self _ _)
      rw [← hd] at h2; exact h2
    simp only [gec_write_loop, if_pos (And.intro hlt hm), hrc,
      if_neg (by decide : ¬ (0 : Int) = EC_LPC_RESULT_ACCESS_DENIED),
      if_neg (by simp : ¬ (0 : Int) ≠ 0)]
    have e1 : addr + i + min (nbytes - i) dev.max_data_write =
        addr + (i + min (nbytes - i) dev.max_data_write) := by omega
    have e2 : nbytes - i - min (nbytes - i) dev.max_data_write =
        nbytes - (i + min (nbytes - i) dev.max_data_write) := by omega
    rw [ih f (i + min (nbytes - i) dev.max_data_write) st p rest
      (by omega) (by rw [← e1, ← e2]; exact htail)
      (fun q hq => hdone q (List.mem_cons_of_mem _ hq)) hp4 hp0]
    simp [toWriteCmd, ← hd]

lemma gec_write_loop_noad (dev : GecDevice) (addr nbytes : Nat)
    (hm : 0 < dev.max_data_write) :
    ∀ fuel i st, nbytes - i < fuel →
      (∀ p ∈ chunkRanges (addr + i) dev.max_data_write (nbytes - i),
        dev.writeStatus p.1 p.2 ≠ EC_LPC_RESULT_ACCESS_DENIED) →
      (gec_write_loop dev addr nbytes fuel i
        st).2.1.try_latest_firmware = true := by
  intro fuel
  induction fuel with
  | zero => intro i st h _; omega
  | succ fuel ih =>
    intro i st hfuel hnoad
    by_cases hlt : i < nbytes
    · have hrem : 0 < nbytes - i := by omega
      have hsz : 0 < min (nbytes - i) dev.max_data_write := by omega
      rw [chunkRanges_cons (addr + i) dev.max_data_write (nbytes - i)
        hrem hm] at hnoad
      have hhead := hnoad (addr + i, min (nbytes - i) dev.max_data_write)
        (List.mem_cons_self _ _)
      simp only [gec_write_loop, if_pos (And.intro hlt hm),
        if_neg hhead]
      by_cases h0 : dev.writeStatus (addr + i)
          (min (nbytes - i) dev.max_data_write) ≠ 0
      · rw [if_pos h0]
      · rw [if_neg h0]
        have e1 : addr + i + min (nbytes - i) dev.max_data_write =
            addr + (i + min (nbytes - i) dev.max_data_write) := by omega
        have e2 : nbytes - i - min (nbytes - i) dev.max_data_write =
            nbytes - (i + min (nbytes - i) dev.max_data_write) := by omega
        exact ih (i + min (nbytes - i) dev.max_data_write) st (by omega)
          (by intro p hp
              refine hnoad p (List.mem_cons_of_mem _ ?_)
              rwa [e1, e2])
    · simp only [gec_write_loop,
        if_neg (by omega : ¬ (i < nbytes ∧ 0 < dev.max_data_write))]

lemma gec_write_loop_mono (dev : GecDevice) (addr nbytes : Nat) :
    ∀ fuel i st img,
      (fwOf (gec_write_loop dev addr nbytes fuel i st).2.1 img).flags =
        true →
      (fwOf st img).flags = true := by
  intro fuel
  induction fuel with
  | zero => intro i st img h; exact h
  | succ fuel ih =>
    intro i st img h
    by_cases hcond : i < nbytes ∧ 0 < dev.max_data_write
    · simp only [gec_write_loop, if_pos hcond] at h
      by_cases h4 : dev.writeStatus (addr + i)
          (min (nbytes - i) dev.max_data_write) =
          EC_LPC_RESULT_ACCESS_DENIED
      · rw [if_pos h4] at h
        simp only at h
        rw [fwOf_set_need, fwOf_invalidate] at h
        exact invalidateArea_mono _ _ _ h
      · rw [if_neg h4] at h
        by_cases h0 : dev.writeStatus (addr + i)
            (min (nbytes - i) dev.max_data_write) ≠ 0
        · rw [if_pos h0] at h
          simp only at h
          rw [fwOf_set_try] at h
          exact h
        · rw [if_neg h0] at h
          simp only at h
          exact ih _ st img h
    · simp only [gec_write_loop, if_neg hcond] at h
      rw [fwOf_set_try] at h
      exact h

/-! ### Helper lemmas: jump, orchestrator state -/

lemma gec_jump_copy_explicit (dev : GecDevice) (st : GecState)
    (t : LpcImage) (ht : t ≠ LpcImage.unknown) :
    gec_jump_copy dev st t = (dev.rebootStatus t, [Cmd.rebootEC t]) := by
  simp only [gec_jump_copy, pickCopy, if_pos ht, if_neg ht]

lemma gec_need_2nd_pass_state (dev : GecDevice) (st : GecState) :
    (gec_need_2nd_pass dev st).2.1 = st := by
  rw [gec_need_2nd_pass]
  split
  · rfl
  · split
    · dsimp only
      split <;> rfl
    · rfl

lemma gec_finish_state (dev : GecDevice) (st : GecState) :
    (gec_finish dev st).2.1 = st := by
  rw [gec_finish]
  split
  · rfl
  · split
    · dsimp only
      repeat' split
      all_goals rfl
    · rfl

lemma runOp_mono (dev : GecDevice) (st : GecState) (op : GecOp)
    (img : LpcImage)
    (h : (fwOf (runOp dev st op) img).flags = true) :
    (fwOf st img).flags = true := by
  cases op with
  | erase a l =>
    simp only [runOp, gec_block_erase] at h
    by_cases h4 : dev.eraseStatus a l = EC_LPC_RESULT_ACCESS_DENIED
    · rw [if_pos h4] at h
      simp only at h
      rw [fwOf_set_need, fwOf_invalidate] at h
      exact invalidateArea_mono _ _ _ h
    · rw [if_neg h4] at h
      by_cases h0 : dev.eraseStatus a l ≠ 0
      · rw [if_pos h0] at h
        exact h
      · rw [if_neg h0] at h
        simp only at h
        rw [fwOf_set_try] at h
        exact h
  | write a n =>
    simp only [runOp, gec_write] at h
    exact gec_write_loop_mono dev a n _ _ _ _ h
  | read a n => exact h
  | jump t => exact h
  | need2nd =>
    rw [runOp, gec_need_2nd_pass_state] at h
    exact h
  | finish =>
    rw [runOp, gec_finish_state] at h
    exact h

lemma runOps_mono (dev : GecDevice) :
    ∀ (ops : List GecOp) (st : GecState) (img : LpcImage),
      (fwOf (runOps dev st ops) img).flags = true →
      (fwOf st img).flags = true := by
  intro ops
  induction ops with
  | nil => intro st img h; exact h
  | cons op ops ih =>
    intro st img h
    exact runOp_mono dev st op img (ih (runOp dev st op) img h)

/-! ### Claim theorems -/

/-- C1: for every erase or write call in which the device reports
AccessDenied on an underlying erase/write command, the engine invalidates
every region overlapping the entire originally requested range (not just
the failed chunk), sets the deferred-pass flag, and returns the
distinguished recoverable ACCESS_DENIED value immediately, issuing no
further chunk commands; any other non-success device status is returned to
the caller as a hard error. -/
theorem C1_access_denied_defers (dev : GecDevice) (st : GecState)
    (a l addr nbytes : Nat) (done : List (Nat × Nat)) (p : Nat × Nat)
    (rest : List (Nat × Nat)) :
    (dev.eraseStatus a l = EC_LPC_RESULT_ACCESS_DENIED →
      gec_block_erase dev st a l =
        (ACCESS_DENIED,
         { gec_invalidate_copy st a l with need_2nd_pass := true },
         [Cmd.flashErase a l])) ∧
    (dev.eraseStatus a l ≠ EC_LPC_RESULT_ACCESS_DENIED →
      dev.eraseStatus a l ≠ 0 →
      gec_block_erase dev st a l =
        (dev.eraseStatus a l, st, [Cmd.flashErase a l])) ∧
    (0 < dev.max_data_write →
      chunkRanges addr dev.max_data_write nbytes = done ++ p :: rest →
      (∀ q ∈ done, dev.writeStatus q.1 q.2 = 0) →
      dev.writeStatus p.1 p.2 = EC_LPC_RESULT_ACCESS_DENIED →
      gec_write dev st addr nbytes =
        (ACCESS_DENIED,
         { gec_invalidate_copy st addr nbytes with need_2nd_pass := true },
         (done ++ [p]).map toWriteCmd)) ∧
    (0 < dev.max_data_write →
      chunkRanges addr dev.max_data_write nbytes = done ++ p :: rest →
      (∀ q ∈ done, dev.writeStatus q.1 q.2 = 0) →
      dev.writeStatus p.1 p.2 ≠ EC_LPC_RESULT_ACCESS_DENIED →
      dev.writeStatus p.1 p.2 ≠ 0 →
      gec_write dev st addr nbytes =
        (dev.writeStatus p.1 p.2,
         { st with try_latest_firmware := true },
         (done ++ [p]).map toWriteCmd)) := by
  refine ⟨?_, ?_, ?_, ?_⟩
  · intro h
    simp [gec_block_erase, h]
  · intro h4 h0
    simp only [gec_block_erase]
    rw [if_neg h4, if_pos h0]
  · intro hm hranges hdone hp
    rw [gec_write]
    exact gec_write_loop_ad dev addr nbytes hm done (nbytes + 1) 0 st p
      rest (by omega) (by simpa using hranges) hdone hp
  · intro hm hranges hdone hp4 hp0
    rw [gec_write]
    exact gec_write_loop_hard dev addr nbytes hm done (nbytes + 1) 0 st p
      rest (by omega) (by simpa using hranges) hdone hp4 hp0

/-- Witness for C1 at a concrete device: the erase is denied outright; the
write succeeds on its first chunk and is denied on the second, whereupon
the whole requested range is invalidated and only the two issued commands
appear in the trace. -/
theorem C1_witness :
    gec_block_erase devC1 stC1 0 4 =
      (ACCESS_DENIED,
       { gec_invalidate_copy stC1 0 4 with need_2nd_pass := true },
       [Cmd.flashErase 0 4]) ∧
    gec_write devC1 stC1 0 4 =
      (ACCESS_DENIED,
       { gec_invalidate_copy stC1 0 4 with need_2nd_pass := true },
       [Cmd.flashWrite 0 2, Cmd.flashWrite 2 2]) := by
  have h := C1_access_denied_defers devC1 stC1 0 4 0 4 [(0, 2)] (2, 2) []
  exact ⟨h.1 (by decide),
    h.2.2.1 (by decide) (by decide) (by decide) (by decide)⟩

/-- C2 counterexample: with a detected programmer, a candidate image whose
region map cannot be parsed makes prepare return 0 — the same value the
success path returns (the jump-to-RO result below is also 0) — and not a
distinguishable failure, refuting "returns failure if and only if the
region map cannot be parsed". -/
theorem C2_counterexample :
    devC2.priv = some true ∧
    gec_prepare devC2 stC2 none = (0, stC2, []) ∧
    (gec_prepare devC2 stC2 (some areasC2)).1 = 0 := by
  refine ⟨rfl, by decide, by decide⟩

/-- C2 amended: with a detected programmer, prepare returns 0 and performs
no device mutation (no command is issued and the registry is unchanged)
when the region map cannot be parsed; on a successful parse it caches the
matched regions as fresh and always forces a Copy-Jump to the RO copy,
returning that jump's status. -/
theorem C2_prepare_amended (dev : GecDevice) (st : GecState)
    (fm : FmapParse) (hdet : dev.priv = some true) :
    (fm = none → gec_prepare dev st fm = (0, st, [])) ∧
    (∀ areas, fm = some areas →
      gec_prepare dev st fm =
        (dev.rebootStatus LpcImage.ro, areas.foldl applyArea st,
         [Cmd.rebootEC LpcImage.ro])) := by
  constructor
  · intro h
    subst h
    simp [gec_prepare, hdet]
  · intro areas h
    subst h
    simp only [gec_prepare, hdet]
    rw [if_neg (by simp)]
    rw [gec_jump_copy_explicit dev _ LpcImage.ro (by simp)]

/-- Witness for the amended C2 at a concrete device and image. -/
theorem C2_witness :
    gec_prepare devC2 stC2 none = (0, stC2, []) ∧
    gec_prepare devC2 stC2 (some areasC2) =
      (devC2.rebootStatus LpcImage.ro, areasC2.foldl applyArea stC2,
       [Cmd.rebootEC LpcImage.ro]) := by
  exact ⟨(C2_prepare_amended devC2 stC2 none rfl).1 rfl,
    (C2_prepare_amended devC2 stC2 (some areasC2) rfl).2 areasC2 rfl⟩

/-- C3: jump with an unspecified target deterministically picks the first
fresh region in the order RO, RW-A, RW-B and issues exactly one reboot
command naming it; it fails without issuing any command exactly when no
region is fresh. -/
theorem C3_jump_unspecified (dev : GecDevice) (st : GecState) :
    (st.fwRO.flags = true →
      gec_jump_copy dev st LpcImage.unknown =
        (dev.rebootStatus LpcImage.ro, [Cmd.rebootEC LpcImage.ro])) ∧
    (st.fwRO.flags = false → st.fwA.flags = true →
      gec_jump_copy dev st LpcImage.unknown =
        (dev.rebootStatus LpcImage.rwA, [Cmd.rebootEC LpcImage.rwA])) ∧
    (st.fwRO.flags = false → st.fwA.flags = false → st.fwB.flags = true →
      gec_jump_copy dev st LpcImage.unknown =
        (dev.rebootStatus LpcImage.rwB, [Cmd.rebootEC LpcImage.rwB])) ∧
    (st.fwRO.flags = false → st.fwA.flags = false → st.fwB.flags = false →
      gec_jump_copy dev st LpcImage.unknown = (1, [])) ∧
    (((gec_jump_copy dev st LpcImage.unknown).1 ≠ 0 ∧
        (gec_jump_copy dev st LpcImage.unknown).2 = []) ↔
      (st.fwRO.flags = false ∧ st.fwA.flags = false ∧
        st.fwB.flags = false)) := by
  refine ⟨?_, ?_, ?_, ?_, ?_⟩
  · intro h
    simp [gec_jump_copy, pickCopy, h]
  · intro h1 h2
    simp [gec_jump_copy, pickCopy, h1, h2]
  · intro h1 h2 h3
    simp [gec_jump_copy, pickCopy, h1, h2, h3]
  · intro h1 h2 h3
    simp [gec_jump_copy, pickCopy, h1, h2, h3]
  · cases hRO : st.fwRO.flags <;> cases hA : st.fwA.flags <;>
      cases hB : st.fwB.flags <;>
      simp [gec_jump_copy, pickCopy, hRO, hA, hB]

/-- Witness for C3: with every region stale, the jump fails and issues
nothing. -/
theorem C3_witness :
    gec_jump_copy devC3 stC3 LpcImage.unknown = (1, []) :=
  (C3_jump_unspecified devC3 stC3).2.2.2.1 rfl rfl rfl

/-- C4 counterexample: with the deferred-pass flag set and a fresh region
available (RO is fresh), a failing reboot command makes need_2nd_pass
return -1, not the positive value the claim requires when a fresh region
exists. -/
theorem C4_counterexample :
    devC4.priv = some true ∧
    stC4.need_2nd_pass = true ∧
    stC4.fwRO.flags = true ∧
    (gec_need_2nd_pass devC4 stC4).1 = -1 := by
  refine ⟨rfl, rfl, rfl, by decide⟩

/-- C4 amended: with a detected programmer, need_2nd_pass returns 0 exactly
when the deferred-pass flag is clear; otherwise it invokes the unspecified
jump and returns -1 whenever that jump fails — in particular when no fresh
region exists — and the positive value 1 when the jump succeeds. -/
theorem C4_need_2nd_pass_amended (dev : GecDevice) (st : GecState)
    (hdet : dev.priv = some true) :
    (st.need_2nd_pass = false → gec_need_2nd_pass dev st = (0, st, [])) ∧
    (st.need_2nd_pass = true →
      ((gec_jump_copy dev st LpcImage.unknown).1 ≠ 0 →
        (gec_need_2nd_pass dev st).1 = -1) ∧
      ((gec_jump_copy dev st LpcImage.unknown).1 = 0 →
        (gec_need_2nd_pass dev st).1 = 1) ∧
      (st.fwRO.flags = false → st.fwA.flags = false →
        st.fwB.flags = false → (gec_need_2nd_pass dev st).1 = -1)) ∧
    ((gec_need_2nd_pass dev st).1 = 0 ↔ st.need_2nd_pass = false) := by
  refine ⟨?_, ?_, ?_⟩
  · intro h
    simp [gec_need_2nd_pass, hdet, h]
  · intro h
    refine ⟨?_, ?_, ?_⟩
    · intro hj
      simp [gec_need_2nd_pass, hdet, h, hj]
    · intro hj
      simp [gec_need_2nd_pass, hdet, h, hj]
    · intro h1 h2 h3
      have hj : gec_jump_copy dev st LpcImage.unknown = (1, []) := by
        simp [gec_jump_copy, pickCopy, h1, h2, h3]
      simp [gec_need_2nd_pass, hdet, h, hj]
  · cases h : st.need_2nd_pass
    · simp [gec_need_2nd_pass, hdet, h]
    · by_cases hj : (gec_jump_copy dev st LpcImage.unknown).1 ≠ 0
      · simp [gec_need_2nd_pass, hdet, h, hj]
      · simp [gec_need_2nd_pass, hdet, h, hj]

/-- Witness for the amended C4: flag set, RO fresh, reboot succeeding:
the call jumps and reports a positive second pass. -/
theorem C4_witness :
    (gec_need_2nd_pass devC4w stC4).1 = 1 :=
  ((C4_need_2nd_pass_amended devC4w stC4 rfl).2.1 rfl).2.1 (by decide)

/-- C5: within a detected session, finish returns success immediately when
attempt_latest_boot (try_latest_firmware) is clear; otherwise it attempts
jump(RW-B) only if RW-B is fresh and stops on its success, else attempts
jump(RW-A) only if RW-A is fresh and stops on its success, else attempts
jump(RO) and returns that jump's status verbatim; the command trace shows
exactly which jumps were attempted, in that order. -/
theorem C5_finish_order (dev : GecDevice) (st : GecState)
    (hdet : dev.priv = some true) :
    (st.try_latest_firmware = false → gec_finish dev st = (0, st, [])) ∧
    (st.try_latest_firmware = true →
      (st.fwB.flags = true → dev.rebootStatus LpcImage.rwB = 0 →
        gec_finish dev st = (0, st, [Cmd.rebootEC LpcImage.rwB])) ∧
      (st.fwB.flags = false → st.fwA.flags = true →
        dev.rebootStatus LpcImage.rwA = 0 →
        gec_finish dev st = (0, st, [Cmd.rebootEC LpcImage.rwA])) ∧
      (st.fwB.flags = true → dev.rebootStatus LpcImage.rwB ≠ 0 →
        st.fwA.flags = true → dev.rebootStatus LpcImage.rwA = 0 →
        gec_finish dev st =
          (0, st,
           [Cmd.rebootEC LpcImage.rwB, Cmd.rebootEC LpcImage.rwA])) ∧
      (st.fwB.flags = false → st.fwA.flags = false →
        gec_finish dev st =
          (dev.rebootStatus LpcImage.ro, st,
           [Cmd.rebootEC LpcImage.ro])) ∧
      (st.fwB.flags = true → dev.rebootStatus LpcImage.rwB ≠ 0 →
        st.fwA.flags = false →
        gec_finish dev st =
          (dev.rebootStatus LpcImage.ro, st,
           [Cmd.rebootEC LpcImage.rwB, Cmd.rebootEC LpcImage.ro])) ∧
      (st.fwB.flags = false → st.fwA.flags = true →
        dev.rebootStatus LpcImage.rwA ≠ 0 →
        gec_finish dev st =
          (dev.rebootStatus LpcImage.ro, st,
           [Cmd.rebootEC LpcImage.rwA, Cmd.rebootEC LpcImage.ro])) ∧
      (st.fwB.flags = true → dev.rebootStatus LpcImage.rwB ≠ 0 →
        st.fwA.flags = true → dev.rebootStatus LpcImage.rwA ≠ 0 →
        gec_finish dev st =
          (dev.rebootStatus LpcImage.ro, st,
           [Cmd.rebootEC LpcImage.rwB, Cmd.rebootEC LpcImage.rwA,
            Cmd.rebootEC LpcImage.ro]))) := by
  have hB := gec_jump_copy_explicit dev st LpcImage.rwB (by simp)
  have hA := gec_jump_copy_explicit dev st LpcImage.rwA (by simp)
  have hRO := gec_jump_copy_explicit dev st LpcImage.ro (by simp)
  constructor
  · intro h
    simp [gec_finish, hdet, h]
  · intro h
    refine ⟨?_, ?_, ?_, ?_, ?_, ?_, ?_⟩
    · intro hBf hB0
      simp [gec_finish, hdet, h, hBf, hB, hB0]
    · intro hBf hAf hA0
      simp [gec_finish, hdet, h, hBf, hAf, hA, hA0]
    · intro hBf hB0 hAf hA0
      simp [gec_finish, hdet, h, hBf, hAf, hB, hA, hB0, hA0]
    · intro hBf hAf
      simp [gec_finish, hdet, h, hBf, hAf, hRO]
    · intro hBf hB0 hAf
      simp [gec_finish, hdet, h, hBf, hAf, hB, hRO, hB0]
    · intro hBf hAf hA0
      simp [gec_finish, hdet, h, hBf, hAf, hA, hRO, hA0]
    · intro hBf hB0 hAf hA0
      simp [gec_finish, hdet, h, hBf, hAf, hB, hA, hRO, hB0, hA0]

/-- Witness for C5: RW-B fresh but its jump fails, RW-A fresh and its jump
succeeds: finish stops after the A jump with success and never attempts
RO. -/
theorem C5_witness :
    gec_finish devC5 stC5 =
      (0, stC5, [Cmd.rebootEC LpcImage.rwB, Cmd.rebootEC LpcImage.rwA]) :=
  ((C5_finish_order devC5 stC5 rfl).2 rfl).2.2.1 rfl (by decide) rfl
    (by decide)

/-- C6 counterexample: a write whose very first chunk fails with the hard
error status 2 — so no underlying command succeeded and no AccessDenied
was reported — still sets try_latest_firmware (attempt_latest_boot),
refuting "a write or erase call in which no underlying command succeeds
leaves the flag unchanged". -/
theorem C6_counterexample :
    stC6.try_latest_firmware = false ∧
    devC6.writeStatus 0 2 = 2 ∧
    (gec_write devC6 stC6 0 4).2.2 = [Cmd.flashWrite 0 2] ∧
    (gec_write devC6 stC6 0 4).1 = 2 ∧
    (gec_write devC6 stC6 0 4).2.1.try_latest_firmware = true := by
  refine ⟨rfl, rfl, by decide, by decide, by decide⟩

/-- C6 amended: erase sets attempt_latest_boot exactly on its clean
success path and leaves it unchanged on any non-success status; write sets
it whenever no issued chunk command reports AccessDenied — including when
a chunk fails with a hard error, in which case the flag is set even though
the call failed — and leaves it unchanged when a chunk reports
AccessDenied. -/
theorem C6_try_latest_amended (dev : GecDevice) (st : GecState)
    (a l addr nbytes : Nat) (done : List (Nat × Nat)) (p : Nat × Nat)
    (rest : List (Nat × Nat)) :
    (dev.eraseStatus a l = 0 →
      (gec_block_erase dev st a l).2.1.try_latest_firmware = true) ∧
    (dev.eraseStatus a l ≠ 0 →
      (gec_block_erase dev st a l).2.1.try_latest_firmware =
        st.try_latest_firmware) ∧
    (0 < dev.max_data_write →
      (∀ q ∈ chunkRanges addr dev.max_data_write nbytes,
        dev.writeStatus q.1 q.2 ≠ EC_LPC_RESULT_ACCESS_DENIED) →
      (gec_write dev st addr nbytes).2.1.try_latest_firmware = true) ∧
    (0 < dev.max_data_write →
      chunkRanges addr dev.max_data_write nbytes = done ++ p :: rest →
      (∀ q ∈ done, dev.writeStatus q.1 q.2 = 0) →
      dev.writeStatus p.1 p.2 = EC_LPC_RESULT_ACCESS_DENIED →
      (gec_write dev st addr nbytes).2.1.try_latest_firmware =
        st.try_latest_firmware) := by
  refine ⟨?_, ?_, ?_, ?_⟩
  · intro h
    simp only [gec_block_erase, h]
    rw [if_neg (by decide : ¬ (0 : Int) = EC_LPC_RESULT_ACCESS_DENIED),
      if_neg (by simp : ¬ (0 : Int) ≠ 0)]
  · intro h
    by_cases h4 : dev.eraseStatus a l = EC_LPC_RESULT_ACCESS_DENIED
    · simp only [gec_block_erase]
      rw [if_pos h4]
      simp [gec_invalidate_copy]
    · simp only [gec_block_erase]
      rw [if_neg h4, if_pos h]
  · intro hm hnoad
    rw [gec_write]
    exact gec_write_loop_noad dev addr nbytes hm (nbytes + 1) 0 st
      (by omega) (by simpa using hnoad)
  · intro hm hranges hdone hp
    rw [gec_write,
      gec_write_loop_ad dev addr nbytes hm done (nbytes + 1) 0 st p rest
        (by omega) (by simpa using hranges) hdone hp]
    simp [gec_invalidate_copy]

/-- Witness for the amended C6: a clean erase sets the flag; a write whose
chunks fail with a hard (non-AccessDenied) status also sets it. -/
theorem C6_witness :
    (gec_block_erase devC6w stC6 0 4).2.1.try_latest_firmware = true ∧
    (gec_write devC6w stC6 0 4).2.1.try_latest_firmware = true := by
  have h := C6_try_latest_amended devC6w stC6 0 4 0 4 [] (0, 2) []
  exact ⟨h.1 rfl, h.2.2.1 (by decide) (by decide)⟩

/-- C7: with checksum verification not compiled in, every command
succeeding and a positive transport maximum, a read or write of N bytes
issues exactly ceil(N / max) flash commands, each of positive size at most
max, whose offset ranges are contiguous, non-overlapping, in increasing
offset order and exactly cover [offset, offset + N); a read concatenates
the chunk payloads into the destination buffer in that same order. -/
theorem C7_chunking (dev : GecDevice) (arr : List Nat) (base N : Nat)
    (st : GecState)
    (hmr : 0 < dev.max_data_read) (hmw : 0 < dev.max_data_write)
    (hNr : dev.max_data_read < N) (hNw : dev.max_data_write < N)
    (hrok : ∀ o s, dev.readStatus o s = 0)
    (hwok : ∀ o s, dev.writeStatus o s = 0)
    (hdata : ∀ o s, s ≤ (dev.readData o s).length)
    (hlen : arr.length = N) :
    ((gec_read dev arr base N).1 = 0 ∧
     (gec_read dev arr base N).2.2.length =
       (N + dev.max_data_read - 1) / dev.max_data_read ∧
     (∀ c ∈ (gec_read dev arr base N).2.2, c.isRead = true ∧
       0 < c.sz ∧ c.sz ≤ dev.max_data_read) ∧
     contiguousFrom base (gec_read dev arr base N).2.2 = true ∧
     ((gec_read dev arr base N).2.2.map Cmd.sz).sum = N ∧
     (gec_read dev arr base N).2.1 =
       joinAll ((gec_read dev arr base N).2.2.map
         (fun c => (dev.readData c.ofs c.sz).take c.sz))) ∧
    ((gec_write dev st base N).1 = 0 ∧
     (gec_write dev st base N).2.2.length =
       (N + dev.max_data_write - 1) / dev.max_data_write ∧
     (∀ c ∈ (gec_write dev st base N).2.2, c.isWrite = true ∧
       0 < c.sz ∧ c.sz ≤ dev.max_data_write) ∧
     contiguousFrom base (gec_write dev st base N).2.2 = true ∧
     ((gec_write dev st base N).2.2.map Cmd.sz).sum = N) := by
  have hread : gec_read dev arr base N =
      (0,
       joinAll ((chunkRanges base dev.max_data_read N).map
         (fun p => (dev.readData p.1 p.2).take p.2)),
       (chunkRanges base dev.max_data_read N).map toReadCmd) := by
    rw [gec_read]
    have h := gec_read_loop_ok dev base N hmr hrok hdata (N + 1) 0 arr
      (by omega) (by omega) hlen
    simpa using h
  have hwrite : gec_write dev st base N =
      (0, { st with try_latest_firmware := true },
       (chunkRanges base dev.max_data_write N).map toWriteCmd) := by
    rw [gec_write]
    have h := gec_write_loop_ok dev base N hmw (N + 1) 0 st (by omega)
      (by intro p hp; exact hwok p.1 p.2)
    simpa using h
  constructor
  · rw [hread]
    refine ⟨rfl, ?_, ?_, ?_, ?_, ?_⟩
    · simp only [List.length_map]
      exact chunkRanges_length dev.max_data_read hmr N base
    · intro c hc
      obtain ⟨q, hq, rfl⟩ := List.mem_map.mp hc
      have := chunkRanges_mem dev.max_data_read N base q hq
      exact ⟨rfl, this.1, this.2⟩
    · exact chunkRanges_contig dev.max_data_read toReadCmd
        (fun _ => rfl) (fun _ => rfl) N base
    · rw [List.map_map]
      have he : Cmd.sz ∘ toReadCmd = Prod.snd := by
        funext q; rfl
      rw [he]
      rcases chunkRanges_sum dev.max_data_read N base with h | h
      · exact h
      · omega
    · rw [List.map_map]
      rfl
  · rw [hwrite]
    refine ⟨rfl, ?_, ?_, ?_, ?_⟩
    · simp only [List.length_map]
      exact chunkRanges_length dev.max_data_write hmw N base
    · intro c hc
      obtain ⟨q, hq, rfl⟩ := List.mem_map.mp hc
      have := chunkRanges_mem dev.max_data_write N base q hq
      exact ⟨rfl, this.1, this.2⟩
    · exact chunkRanges_contig dev.max_data_write toWriteCmd
        (fun _ => rfl) (fun _ => rfl) N base
    · rw [List.map_map]
      have he : Cmd.sz ∘ toWriteCmd = Prod.snd := by
        funext q; rfl
      rw [he]
      rcases chunkRanges_sum dev.max_data_write N base with h | h
      · exact h
      · omega

/-- Witness for C7: a 5-byte transfer with a 2-byte maximum issues three
commands totalling 5 bytes, and the read result is the payload
concatenation. -/
theorem C7_witness :
    (gec_read devC7 arrC7 0 5).2.2.length = 3 ∧
    ((gec_write devC7 stC7 0 5).2.2.map Cmd.sz).sum = 5 ∧
    (gec_read devC7 arrC7 0 5).2.1 = [0, 0, 2, 2, 4] := by
  have h := C7_chunking devC7 arrC7 0 5 stC7 (by decide) (by decide)
    (by decide) (by decide) (fun _ _ => rfl) (fun _ _ => rfl)
    (fun o s => by simp [devC7]) (by simp [arrC7])
  refine ⟨h.1.2.1.trans (by decide), h.2.2.2.2.2, ?_⟩
  rw [h.1.2.2.2.2.2]
  decide

/-- C8 counterexample: invalidate with an empty query interval (len = 0)
whose start address lies inside the RO region still clears that region's
freshness flag, refuting "every region keeps its flag unchanged when the
queried interval is empty". -/
theorem C8_counterexample :
    stC8.fwRO.flags = true ∧
    (gec_invalidate_copy stC8 16 0).fwRO.flags = false := by
  refine ⟨rfl, by decide⟩

/-- C8 amended: for a non-empty queried interval and a region with a
non-empty, non-wrapping 32-bit range, invalidate clears the region's flag
exactly when the region's range intersects [addr, addr + len), with a
symmetric intersection test, and leaves non-intersecting regions
unchanged; when len = 0, however, a region whose range contains addr is
still cleared. -/
theorem C8_invalidate_amended (st : GecState) (addr len : Nat)
    (img : LpcImage) (himg : img ≠ LpcImage.unknown) (hlen : 0 < len)
    (hsize : 0 < (fwOf st img).size)
    (hov1 : (fwOf st img).offset + (fwOf st img).size < U32)
    (hov2 : addr + len < U32) :
    ((fwOf (gec_invalidate_copy st addr len) img).flags = true ↔
      ((fwOf st img).flags = true ∧
        ¬(addr < (fwOf st img).offset + (fwOf st img).size ∧
          (fwOf st img).offset < addr + len))) := by
  rw [fwOf_invalidate]
  have h1 : ((fwOf st img).offset + (fwOf st img).size) % U32 =
      (fwOf st img).offset + (fwOf st img).size := Nat.mod_eq_of_lt hov1
  have h2 : (addr + len) % U32 = addr + len := Nat.mod_eq_of_lt hov2
  unfold invalidateArea rangeHit
  rw [h1, h2]
  split
  case isTrue h =>
    simp only [Bool.or_eq_true, Bool.and_eq_true, decide_eq_true_eq] at h
    constructor
    · intro hc
      simp at hc
    · rintro ⟨hfl, hni⟩
      exfalso
      apply hni
      omega
  case isFalse h =>
    simp only [Bool.or_eq_true, Bool.and_eq_true, decide_eq_true_eq,
      not_or, not_and, not_lt, not_le] at h
    constructor
    · intro hfl
      refine ⟨hfl, ?_⟩
      omega
    · exact fun h' => h'.1

/-- Witness for the amended C8: a query range disjoint from the RO region
leaves the RO freshness flag set. -/
theorem C8_witness :
    (fwOf (gec_invalidate_copy stC8 300 10) LpcImage.ro).flags = true :=
  (C8_invalidate_amended stC8 300 10 LpcImage.ro (by decide) (by decide)
    (by decide) (by decide) (by decide)).mpr ⟨rfl, by decide⟩

/-- C9: within a session, a stale region stays stale across any sequence
of erase, write, read, jump, need_second_pass and finish calls (only a new
prepare can set a freshness flag), and invalidate itself only ever clears
flags. -/
theorem C9_stale_stays_stale :
    (∀ (dev : GecDevice) (st : GecState) (ops : List GecOp)
       (img : LpcImage),
      (fwOf st img).flags = false →
      (fwOf (runOps dev st ops) img).flags = false) ∧
    (∀ (st : GecState) (addr len : Nat) (img : LpcImage),
      (fwOf (gec_invalidate_copy st addr len) img).flags = true →
      (fwOf st img).flags = true) := by
  constructor
  · intro dev st ops img h
    cases hb : (fwOf (runOps dev st ops) img).flags
    · rfl
    · have h2 := runOps_mono dev ops st img hb
      rw [h] at h2
      exact absurd h2 (by decide)
  · intro st addr len img h
    rw [fwOf_invalidate] at h
    exact invalidateArea_mono _ _ _ h

/-- Witness for C9: a stale RO region stays stale across a denied erase, a
successful write, a read, a jump, the second-pass check and finish. -/
theorem C9_witness :
    (fwOf (runOps devC9 stC9 opsC9) LpcImage.ro).flags = false :=
  C9_stale_stays_stale.1 devC9 stC9 opsC9 LpcImage.ro rfl

/-- C10: with the private programmer data absent or its detected flag
clear, prepare, need_second_pass and finish all return 0 (the success /
no-pass-needed value), issue no transport command, ignore the image parse
result entirely, and leave the region registry and both session flags
unchanged. -/
theorem C10_not_detected_noop (dev : GecDevice) (st : GecState)
    (fm : FmapParse) (h : dev.priv ≠ some true) :
    gec_prepare dev st fm = (0, st, []) ∧
    gec_need_2nd_pass dev st = (0, st, []) ∧
    gec_finish dev st = (0, st, []) := by
  refine ⟨?_, ?_, ?_⟩
  · simp [gec_prepare, h]
  · simp [gec_need_2nd_pass, h]
  · simp [gec_finish, h]

/-- Witness for C10 at a device with no programmer data, a set parse
result and both session flags set. -/
theorem C10_witness :
    gec_prepare devC10 stC10 (some areasC10) = (0, stC10, []) ∧
    gec_need_2nd_pass devC10 stC10 = (0, stC10, []) ∧
    gec_finish devC10 stC10 = (0, stC10, []) :=
  C10_not_detected_noop devC10 stC10 (some areasC10) (by decide)
